import Mathlib

/-!
Verification development for the hops-examples repository.

Part 1 embeds the word-count pipeline of
src/notebooks/beam/portability_wordcount_python.ipynb
(WordExtractingDoFn.process, count_ones and the
split | pair_with_one | group | count pipeline) over lists of
characters.

Part 2 models the asynchronous trial-scheduling and median
early-stopping driver specified in spec.md sections 2 to 4.  The driver
code itself (the maggy library) is not part of the sources of this
repository — only its caller notebook is — so those definitions are
modelled from the spec, as their doc comments state.

Metric values are modelled as rationals.
-/

namespace WordCount

/-- Character class of the word regex used by
WordExtractingDoFn.process: a word character (modelled as ASCII
alphanumeric or underscore) or an apostrophe. -/
def isWordChar (c : Char) : Bool :=
  c.isAlphanum || c = '_' || c = '\''

/-- Python strip() on a line of text, modelled on List Char:
drop whitespace from both ends. -/
def pyStrip (l : List Char) : List Char :=
  ((l.dropWhile Char.isWhitespace).reverse.dropWhile Char.isWhitespace).reverse

/-- Helper for the regex findall over the word-character class: collects
the maximal runs of word characters, in order.  The accumulator holds
the reversed current run. -/
def findallAux : List Char → List Char → List (List Char)
  | [], acc => if acc.isEmpty then [] else [acc.reverse]
  | c :: cs, acc =>
    if isWordChar c then findallAux cs (c :: acc)
    else if acc.isEmpty then findallAux cs []
    else acc.reverse :: findallAux cs []

/-- re.findall of the word-character-class regex over a whole line: the
maximal runs of word characters. -/
def findallWords (l : List Char) : List (List Char) :=
  findallAux l []

/-- WordExtractingDoFn.process: strip the line, then return the words
matched by the regex (a line that strips to empty yields no words,
since the regex finds no run in an empty string). -/
def process (line : List Char) : List (List Char) :=
  findallWords (pyStrip line)

/-- The split stage applied to every input line: all extracted words of
the input, in order. -/
def allWords (lines : List (List Char)) : List (List Char) :=
  (lines.map process).flatten

/-- The pair_with_one stage: beam.Map(lambda x: (x, 1)). -/
def pairWithOne (ws : List (List Char)) : List (List Char × Nat) :=
  ws.map (fun w => (w, 1))

/-- The group stage, beam.GroupByKey(): one output pair per distinct
key, carrying the list of all values paired with that key. -/
def groupByKey (ps : List (List Char × Nat)) : List (List Char × List Nat) :=
  (ps.map Prod.fst).dedup.map
    (fun k => (k, (ps.filter (fun p => p.1 == k)).map Prod.snd))

/-- count_ones from the notebook: (word, ones) maps to (word, sum(ones)). -/
def count_ones (p : List Char × List Nat) : List Char × Nat :=
  (p.1, p.2.sum)

/-- The full counting pipeline split | pair_with_one | group | count of
the notebook. -/
def wordcount (lines : List (List Char)) : List (List Char × Nat) :=
  (groupByKey (pairWithOne (allWords lines))).map count_ones

/-- Concrete input lines used to instantiate the counting theorem. -/
def linesEx : List (List Char) :=
  ["to be or not".toList, "to be".toList]

end WordCount

namespace Driver

/-- Modelled from the spec: the optimization direction of an
experiment. -/
inductive Direction where
  | MAXIMIZE
  | MINIMIZE
deriving DecidableEq, Repr

/-- Modelled from the spec: the status of a Trial. -/
inductive Status where
  | PENDING
  | RUNNING
  | EARLY_STOPPED
  | FINISHED
  | FAILED
deriving DecidableEq, Repr

/-- Modelled from the spec: FINISHED, FAILED and EARLY_STOPPED are the
terminal statuses. -/
def Status.isTerminal : Status → Bool
  | .FINISHED => true
  | .FAILED => true
  | .EARLY_STOPPED => true
  | _ => false

/-- Modelled from the spec: a Trial record — id, status, ordered
metric_history of (step, value) pairs as recorded by the driver,
optional final_metric, and whether a cancel request is pending. -/
structure Trial where
  id : Nat
  status : Status
  metric_history : List (Nat × ℚ)
  final_metric : Option ℚ
  cancelRequested : Bool
deriving DecidableEq, Repr

/-- Modelled from the spec: submit transitions a PENDING trial to
RUNNING; any other status is left unchanged. -/
def submitOp (tr : Trial) : Trial :=
  if tr.status = .PENDING then { tr with status := .RUNNING } else tr

/-- Modelled from the spec: when the training routine returns a final
value, a RUNNING trial records final_metric and becomes FINISHED. -/
def finishOp (m : ℚ) (tr : Trial) : Trial :=
  if tr.status = .RUNNING then
    { tr with status := .FINISHED, final_metric := some m }
  else tr

/-- Modelled from the spec: a failure signal moves a RUNNING trial to
FAILED. -/
def failOp (tr : Trial) : Trial :=
  if tr.status = .RUNNING then { tr with status := .FAILED } else tr

/-- Modelled from the spec: cancel requests cooperative termination of
a RUNNING trial. -/
def cancelOp (tr : Trial) : Trial :=
  if tr.status = .RUNNING then { tr with cancelRequested := true } else tr

/-- Modelled from the spec: once a cancellation is acknowledged the
trial status becomes EARLY_STOPPED. -/
def ackCancelOp (tr : Trial) : Trial :=
  if tr.status = .RUNNING && tr.cancelRequested then
    { tr with status := .EARLY_STOPPED }
  else tr

/-- Modelled from the spec: a drained metric report is appended to the
metric_history of a RUNNING, not-cancelled trial; reports to cancelled
or non-running trials are discarded. -/
def recordOp (step : Nat) (v : ℚ) (tr : Trial) : Trial :=
  if tr.status = .RUNNING && !tr.cancelRequested then
    { tr with metric_history := tr.metric_history ++ [(step, v)] }
  else tr

/-- The operations that can touch a single Trial over a run. -/
inductive Op where
  | submit
  | finish (m : ℚ)
  | fail
  | cancel
  | ackCancel
  | record (step : Nat) (v : ℚ)

/-- Dispatch of a single-trial operation. -/
def applyOp : Op → Trial → Trial
  | .submit, tr => submitOp tr
  | .finish m, tr => finishOp m tr
  | .fail, tr => failOp tr
  | .cancel, tr => cancelOp tr
  | .ackCancel, tr => ackCancelOp tr
  | .record s v, tr => recordOp s v tr

/-- Median of a list of rationals: sort, take the middle element (mean
of the two middle elements for an even length). -/
def median (l : List ℚ) : ℚ :=
  if l.length % 2 = 1 then (l.insertionSort (· ≤ ·)).getD (l.length / 2) 0
  else ((l.insertionSort (· ≤ ·)).getD (l.length / 2 - 1) 0 +
        (l.insertionSort (· ≤ ·)).getD (l.length / 2) 0) / 2

/-- Modelled from the spec: a running value is marked for stopping when
it is strictly below the median for MAXIMIZE, strictly above it for
MINIMIZE. -/
def shouldStop (dir : Direction) (v m : ℚ) : Bool :=
  match dir with
  | .MAXIMIZE => decide (v < m)
  | .MINIMIZE => decide (m < v)

/-- Modelled from the spec: the value of a metric history aligned at
step t — the last reported value at or before t, if any. -/
def alignedAt (t : Nat) (h : List (Nat × ℚ)) : Option ℚ :=
  ((h.filter (fun p => decide (p.1 ≤ t))).map Prod.snd).getLast?

/-- The current (step, value) point of a trial: its last report. -/
def currentPoint (tr : Trial) : Option (Nat × ℚ) :=
  tr.metric_history.getLast?

/-- A trial that counts towards the early-stopping threshold: FINISHED
or EARLY_STOPPED. -/
def isCompleted (tr : Trial) : Bool :=
  tr.status == .FINISHED || tr.status == .EARLY_STOPPED

/-- The completed-trial metric values aligned at step t. -/
def alignedValues (t : Nat) (completed : List Trial) : List ℚ :=
  completed.filterMap (fun c => alignedAt t c.metric_history)

/-- Modelled from the spec: the per-trial median-rule decision.  A
running trial at current point (t, v) is flagged when at least es_min
completed values align at t and v is strictly worse than their
median. -/
def flagTrial (esMin : Nat) (dir : Direction) (completed : List Trial)
    (tr : Trial) : Bool :=
  match currentPoint tr with
  | none => false
  | some (t, v) =>
    if (alignedValues t completed).length < esMin then false
    else shouldStop dir v (median (alignedValues t completed))

/-- Modelled from the spec: the Early-Stopping Policy.  A no-op (no
trial flagged) until at least es_min trials are terminal (FINISHED or
EARLY_STOPPED); otherwise it returns the ids of the RUNNING trials
flagged by the median rule. -/
def evalPolicy (esMin : Nat) (dir : Direction) (trials : List Trial) :
    List Nat :=
  if (trials.filter isCompleted).length < esMin then []
  else
    ((trials.filter (fun tr => tr.status == .RUNNING)).filter
      (flagTrial esMin dir (trials.filter isCompleted))).map Trial.id

/-- Modelled from the spec: the driver cancels every trial flagged by
the Early-Stopping Policy. -/
def applyPolicy (esMin : Nat) (dir : Direction) (trials : List Trial) :
    List Trial :=
  trials.map (fun tr =>
    if tr.id ∈ evalPolicy esMin dir trials then cancelOp tr else tr)

/-- Modelled from the spec: the phases of the Experiment Driver state
machine. -/
inductive Phase where
  | INITIALIZING
  | RUNNING
  | FINALIZING
  | DONE
  | FAILED
deriving DecidableEq, Repr

/-- Modelled from the spec: the Experiment Driver state — the
num_trials target, es_min threshold, direction, next fresh trial id,
every Trial ever created, the Heartbeat Channel buffer of (trial id,
step, value) messages in arrival order, the driver phase and the best
result computed at finalization. -/
structure DriverState where
  numTrials : Nat
  esMin : Nat
  dir : Direction
  nextId : Nat
  trials : List Trial
  channel : List (Nat × Nat × ℚ)
  phase : Phase
  best : Option (Trial × ℚ)
deriving Repr

/-- Modelled from the spec: sample and create a new PENDING trial, but
only while fewer than num_trials trials have been created. -/
def launch (st : DriverState) : DriverState :=
  if st.trials.length < st.numTrials then
    { st with
      trials := st.trials ++ [⟨st.nextId, .PENDING, [], none, false⟩],
      nextId := st.nextId + 1 }
  else st

/-- Modelled from the spec: reporter.report from a worker of trial i —
the update is queued on the Heartbeat Channel unless the trial is not
RUNNING or a cancel request is pending, in which case it is
discarded. -/
def report (i : Nat) (step : Nat) (v : ℚ) (st : DriverState) :
    DriverState :=
  match st.trials.find? (fun tr => tr.id == i) with
  | some tr =>
    if tr.status == .RUNNING && !tr.cancelRequested then
      { st with channel := st.channel ++ [(i, step, v)] }
    else st
  | none => st

/-- The latest queued (step, value) message for trial i, if any
(coalescing: earlier messages of the same drain cycle are
superseded). -/
def latestFor (i : Nat) (ch : List (Nat × Nat × ℚ)) : Option (Nat × ℚ) :=
  ((ch.filter (fun m => m.1 == i)).map Prod.snd).getLast?

/-- Modelled from the spec: drain the Heartbeat Channel — deliver to
each trial the latest queued message for it, then empty the channel. -/
def drain (st : DriverState) : DriverState :=
  { st with
    trials := st.trials.map (fun tr =>
      match latestFor tr.id st.channel with
      | some (step, v) => recordOp step v tr
      | none => tr),
    channel := [] }

/-- Modelled from the spec: a worker signals failure of trial i; only
the record of that trial changes. -/
def workerFail (i : Nat) (st : DriverState) : DriverState :=
  { st with trials := st.trials.map (fun tr =>
      if tr.id == i then failOp tr else tr) }

/-- Modelled from the spec: the training routine of trial i returned
final value m. -/
def workerFinish (i : Nat) (m : ℚ) (st : DriverState) : DriverState :=
  { st with trials := st.trials.map (fun tr =>
      if tr.id == i then finishOp m tr else tr) }

/-- Modelled from the spec: the driver requests cancellation of trial
i. -/
def cancelTrial (i : Nat) (st : DriverState) : DriverState :=
  { st with trials := st.trials.map (fun tr =>
      if tr.id == i then cancelOp tr else tr) }

/-- Modelled from the spec: the worker of trial i acknowledges a
pending cancellation. -/
def ackCancel (i : Nat) (st : DriverState) : DriverState :=
  { st with trials := st.trials.map (fun tr =>
      if tr.id == i then ackCancelOp tr else tr) }

/-- Modelled from the spec: run the Early-Stopping Policy over the
whole state. -/
def policyTick (st : DriverState) : DriverState :=
  { st with trials := applyPolicy st.esMin st.dir st.trials }

/-- The events the driver loop can process. -/
inductive Event where
  | launch
  | report (i step : Nat) (v : ℚ)
  | drain
  | policy
  | finish (i : Nat) (m : ℚ)
  | fail (i : Nat)
  | cancel (i : Nat)
  | ack (i : Nat)

/-- Dispatch of one driver-loop event. -/
def stepEvent : Event → DriverState → DriverState
  | .launch, st => launch st
  | .report i s v, st => report i s v st
  | .drain, st => drain st
  | .policy, st => policyTick st
  | .finish i m, st => workerFinish i m st
  | .fail i, st => workerFail i st
  | .cancel i, st => cancelTrial i st
  | .ack i, st => ackCancel i st

/-- A whole driver run: fold the events over an initial state. -/
def run (events : List Event) (st : DriverState) : DriverState :=
  events.foldl (fun s e => stepEvent e s) st

/-- Modelled from the spec: the final value a trial contributes to the
best-trial comparison — final_metric for FINISHED trials, the last
reported metric for EARLY_STOPPED trials, nothing otherwise (FAILED
trials are excluded). -/
def effFinal (tr : Trial) : Option ℚ :=
  match tr.status with
  | .FINISHED => tr.final_metric
  | .EARLY_STOPPED => (tr.metric_history.map Prod.snd).getLast?
  | _ => none

/-- Direction-aware strict comparison: better dir x y holds when x is
strictly better than y for the direction. -/
def better (dir : Direction) (x y : ℚ) : Bool :=
  match dir with
  | .MAXIMIZE => decide (y < x)
  | .MINIMIZE => decide (x < y)

/-- One fold step of the best-trial computation: keep the incumbent
unless the candidate has a final value and is strictly better. -/
def pickBest (dir : Direction) (acc : Option (Trial × ℚ)) (tr : Trial) :
    Option (Trial × ℚ) :=
  match effFinal tr with
  | none => acc
  | some v =>
    match acc with
    | none => some (tr, v)
    | some (b, bv) => if better dir v bv then some (tr, v) else some (b, bv)

/-- Modelled from the spec: best_trial — the direction-aware best over
the FINISHED and EARLY_STOPPED trials. -/
def computeBest (dir : Direction) (trials : List Trial) :
    Option (Trial × ℚ) :=
  (trials.filter isCompleted).foldl (pickBest dir) none

/-- Modelled from the spec: the FINALIZING to DONE transition —
best_trial is computed and the phase becomes DONE. -/
def finalizeExp (st : DriverState) : DriverState :=
  { st with phase := .DONE, best := computeBest st.dir st.trials }

/-- Modelled from the spec: a valid ParameterSpec domain — INTEGER and
CATEGORICAL domains are non-empty, DOUBLE bounds satisfy min < max. -/
inductive ParamSpec where
  | INTEGER (lo hi : ℤ)
  | DOUBLE (lo hi : ℚ)
  | CATEGORICAL (choices : List String)

/-- A sampled parameter value. -/
inductive ParamValue where
  | int (i : ℤ)
  | dbl (q : ℚ)
  | cat (s : String)
deriving DecidableEq

/-- Domain validity of a ParameterSpec. -/
def validDomain : ParamSpec → Prop
  | .INTEGER lo hi => lo ≤ hi
  | .DOUBLE lo hi => lo < hi
  | .CATEGORICAL cs => cs ≠ []

/-- Modelled from the spec: sample() for one parameter.  Randomness is
modelled by a draw r from the integer random source and a draw u from
the uniform unit interval: INTEGER maps r into the inclusive range,
DOUBLE scales u into the half-open range, CATEGORICAL indexes the set
by r. -/
def sample (p : ParamSpec) (r : Nat) (u : ℚ) : ParamValue :=
  match p with
  | .INTEGER lo hi => .int (lo + (r : ℤ) % (hi - lo + 1))
  | .DOUBLE lo hi => .dbl (lo + u * (hi - lo))
  | .CATEGORICAL cs => .cat (cs.getD (r % cs.length) "")

/-- Membership of a sampled value in the declared domain: inclusive
bounds for INTEGER, half-open for DOUBLE, set membership for
CATEGORICAL. -/
def inDomain : ParamSpec → ParamValue → Prop
  | .INTEGER lo hi, .int i => lo ≤ i ∧ i ≤ hi
  | .DOUBLE lo hi, .dbl q => lo ≤ q ∧ q < hi
  | .CATEGORICAL cs, .cat s => s ∈ cs
  | _, _ => False

/-- A FINISHED trial with a single report (0, v) and final value v,
used as concrete instance data. -/
def doneTrial (i : Nat) (v : ℚ) : Trial :=
  ⟨i, .FINISHED, [(0, v)], some v, false⟩

/-- A RUNNING trial whose current point is (0, v), used as concrete
instance data. -/
def runTrial (i : Nat) (v : ℚ) : Trial :=
  ⟨i, .RUNNING, [(0, v)], none, false⟩

/-- Five completed trials whose values aligned at step 0 are
0.70, 0.75, 0.80, 0.85, 0.90. -/
def completedEx : List Trial :=
  [doneTrial 0 (mkRat 70 100), doneTrial 1 (mkRat 75 100), doneTrial 2 (mkRat 80 100),
   doneTrial 3 (mkRat 85 100), doneTrial 4 (mkRat 90 100)]

/-- Three FINISHED trials and one RUNNING trial: fewer than five
terminal trials. -/
def trialsFew : List Trial :=
  [doneTrial 0 (mkRat 70 100), doneTrial 1 (mkRat 75 100), doneTrial 2 (mkRat 80 100),
   runTrial 3 (mkRat 10 100)]

/-- A concrete driver state holding trialsFew. -/
def stFew : DriverState :=
  ⟨15, 5, .MAXIMIZE, 4, trialsFew, [], .RUNNING, none⟩

/-- A concrete driver state with two running trials. -/
def stEx : DriverState :=
  ⟨15, 5, .MAXIMIZE, 2, [runTrial 0 (mkRat 50 100), runTrial 1 (mkRat 60 100)], [],
   .RUNNING, none⟩

/-- A concrete driver state ready for finalization: two completed
trials and one failed trial. -/
def stBest : DriverState :=
  ⟨15, 5, .MAXIMIZE, 3,
   [doneTrial 0 (mkRat 70 100), doneTrial 1 (mkRat 90 100),
    ⟨2, .FAILED, [], none, false⟩], [], .FINALIZING, none⟩

/-- A concrete event sequence for a small driver run. -/
def eventsEx : List Event :=
  [.launch, .launch, .launch, .report 0 1 (mkRat 55 100), .drain, .policy,
   .finish 0 (mkRat 9 10)]

/-- A concrete initial driver state with a num_trials target of 2. -/
def initEx : DriverState :=
  ⟨2, 5, .MAXIMIZE, 0, [], [], .RUNNING, none⟩

end Driver

namespace WordCount

theorem pair_fst (ws : List (List Char)) :
    (pairWithOne ws).map Prod.fst = ws := by
  unfold pairWithOne
  rw [List.map_map]
  have h : (Prod.fst ∘ fun w : List Char => (w, (1 : Nat))) =
      @id (List Char) := rfl
  rw [h, List.map_id]

theorem group_count (ws : List (List Char)) (w : List Char) :
    (((pairWithOne ws).filter (fun p => p.1 == w)).map Prod.snd).sum =
      ws.count w := by
  unfold pairWithOne
  rw [List.filter_map, List.map_map]
  have h1 : ((fun p : List Char × Nat => p.1 == w) ∘ fun w' => (w', 1)) =
      fun w' => w' == w := rfl
  have h2 : (Prod.snd ∘ fun w' : List Char => (w', (1 : Nat))) =
      fun _ => (1 : Nat) := rfl
  rw [h1, h2, List.count, List.countP_eq_length_filter]
  simp

theorem wordcount_eq (lines : List (List Char)) :
    wordcount lines =
      (allWords lines).dedup.map (fun k => (k, (allWords lines).count k)) := by
  unfold wordcount groupByKey
  rw [List.map_map, pair_fst]
  congr 1
  funext k
  simp only [Function.comp, count_ones]
  rw [group_count]

/-- C10: for every finite list of input lines, the word-count pipeline
(split into words by WordExtractingDoFn.process, pair each word with
one, group by word, sum the ones with count_ones) produces exactly one
output pair per distinct extracted word, and the count of that pair is
the total number of occurrences of the word across all input lines. -/
theorem C10_wordcount_correct (lines : List (List Char)) :
    ((wordcount lines).map Prod.fst).Nodup ∧
    (∀ w, w ∈ (wordcount lines).map Prod.fst ↔ w ∈ allWords lines) ∧
    (∀ w n, (w, n) ∈ wordcount lines → n = (allWords lines).count w) := by
  have hfst : (Prod.fst ∘ fun k => (k, (allWords lines).count k)) =
      @id (List Char) := rfl
  refine ⟨?_, ?_, ?_⟩
  · rw [wordcount_eq, List.map_map, hfst, List.map_id]
    exact List.nodup_dedup _
  · intro w
    rw [wordcount_eq, List.map_map, hfst, List.map_id]
    exact List.mem_dedup
  · intro w n hw
    rw [wordcount_eq] at hw
    rcases List.mem_map.mp hw with ⟨k, hk, he⟩
    rw [Prod.mk.injEq] at he
    obtain ⟨rfl, rfl⟩ := he
    rfl

/-- Witness for C10: on the concrete lines, the pipeline reports the
word "to" with count 2, its number of occurrences. -/
theorem C10_wordcount_correct_witness :
    (2 : Nat) = (WordCount.allWords WordCount.linesEx).count "to".toList :=
  (C10_wordcount_correct linesEx).2.2 "to".toList 2 (by decide)

end WordCount

namespace Driver

/-- C1: a RUNNING trial evaluated by the median rule at its current
point (t, v), with at least es_min completed values aligned at t, is
flagged exactly when v is strictly below their median for MAXIMIZE,
strictly above it for MINIMIZE; a value equal to the median satisfies
neither side, so it is never flagged. -/
theorem C1_median_rule (esMin : Nat) (dir : Direction)
    (completed : List Trial) (tr : Trial) (t : Nat) (v : ℚ)
    (hpt : currentPoint tr = some (t, v))
    (hlen : esMin ≤ (alignedValues t completed).length) :
    flagTrial esMin dir completed tr = true ↔
      ((dir = .MAXIMIZE ∧ v < median (alignedValues t completed)) ∨
       (dir = .MINIMIZE ∧ median (alignedValues t completed) < v)) := by
  have h : ¬ ((alignedValues t completed).length < esMin) := by omega
  simp only [flagTrial, hpt]
  rw [if_neg h]
  cases dir <;> simp [shouldStop]

/-- Witness for C1: against completed values 0.70, 0.75, 0.80, 0.85,
0.90 aligned at step 0 (median 0.80, direction MAXIMIZE), a running
trial at 0.78 is flagged while trials at 0.80 and 0.82 are not. -/
theorem C1_median_rule_witness :
    flagTrial 5 Direction.MAXIMIZE completedEx (runTrial 9 (mkRat 78 100)) = true ∧
    flagTrial 5 Direction.MAXIMIZE completedEx (runTrial 9 (mkRat 80 100)) = false ∧
    flagTrial 5 Direction.MAXIMIZE completedEx (runTrial 9 (mkRat 82 100)) = false := by
  refine ⟨?_, ?_, ?_⟩
  · exact (C1_median_rule 5 .MAXIMIZE completedEx (runTrial 9 (mkRat 78 100)) 0
      (mkRat 78 100) (by decide) (by decide)).mpr (Or.inl ⟨rfl, by decide⟩)
  · have h := C1_median_rule 5 .MAXIMIZE completedEx (runTrial 9 (mkRat 80 100)) 0
      (mkRat 80 100) (by decide) (by decide)
    rcases Bool.eq_false_or_eq_true
        (flagTrial 5 .MAXIMIZE completedEx (runTrial 9 (mkRat 80 100))) with hf | ht
    · exact absurd (h.mp hf) (by decide)
    · exact ht
  · have h := C1_median_rule 5 .MAXIMIZE completedEx (runTrial 9 (mkRat 82 100)) 0
      (mkRat 82 100) (by decide) (by decide)
    rcases Bool.eq_false_or_eq_true
        (flagTrial 5 .MAXIMIZE completedEx (runTrial 9 (mkRat 82 100))) with hf | ht
    · exact absurd (h.mp hf) (by decide)
    · exact ht

/-- C2: while fewer than es_min trials are terminal (FINISHED or
EARLY_STOPPED), the Early-Stopping Policy flags no trial and applying
it changes no trial. -/
theorem C2_es_min_noop (esMin : Nat) (dir : Direction) (trials : List Trial)
    (h : (trials.filter isCompleted).length < esMin) :
    evalPolicy esMin dir trials = [] ∧
    applyPolicy esMin dir trials = trials := by
  have he : evalPolicy esMin dir trials = [] := by
    unfold evalPolicy
    rw [if_pos h]
  refine ⟨he, ?_⟩
  unfold applyPolicy
  simp [he]

/-- Witness for C2: with es_min five and only three FINISHED trials, no
trial is flagged or changed. -/
theorem C2_es_min_noop_witness :
    evalPolicy 5 Direction.MAXIMIZE trialsFew = [] ∧
    applyPolicy 5 Direction.MAXIMIZE trialsFew = trialsFew :=
  C2_es_min_noop 5 .MAXIMIZE trialsFew (by decide)

/-- C7: draining the Heartbeat Channel empties it and delivers the
latest value per trial, so a second drain with no intervening report
changes nothing — in particular it appends no duplicate
metric_history entries. -/
theorem C7_drain_idempotent (st : DriverState) :
    drain (drain st) = drain st := by
  unfold drain
  simp [latestFor]

/-- C3: for every ParameterSpec with a valid domain, sample returns a
value inside the declared domain — inclusive bounds for INTEGER,
half-open for DOUBLE, membership of the declared set for
CATEGORICAL — for every integer draw r and every unit-interval draw
u. -/
theorem C3_sample_in_domain (p : ParamSpec) (r : Nat) (u : ℚ)
    (hp : validDomain p) (hu0 : 0 ≤ u) (hu1 : u < 1) :
    inDomain p (sample p r u) := by
  cases p with
  | INTEGER lo hi =>
    have hlo : lo ≤ hi := hp
    have h0 : 0 ≤ (r : ℤ) % (hi - lo + 1) :=
      Int.emod_nonneg _ (by omega)
    have h1 : (r : ℤ) % (hi - lo + 1) < hi - lo + 1 :=
      Int.emod_lt_of_pos _ (by omega)
    exact ⟨by omega, by omega⟩
  | DOUBLE lo hi =>
    have hlt : lo < hi := hp
    constructor
    · have h0 : 0 ≤ u * (hi - lo) := mul_nonneg hu0 (by linarith)
      show lo ≤ lo + u * (hi - lo)
      linarith
    · have h1 : u * (hi - lo) < 1 * (hi - lo) :=
        mul_lt_mul_of_pos_right hu1 (by linarith)
      show lo + u * (hi - lo) < hi
      linarith
  | CATEGORICAL cs =>
    have hne : cs ≠ [] := hp
    have hidx : r % cs.length < cs.length :=
      Nat.mod_lt _ (List.length_pos.mpr hne)
    show cs.getD (r % cs.length) "" ∈ cs
    rw [List.getD_eq_getElem]
    · exact List.getElem_mem hidx

/-- Witness for C3: an INTEGER parameter with bounds 2 and 8 sampled at
draw 11 yields a value in the inclusive range. -/
theorem C3_sample_in_domain_witness :
    inDomain (ParamSpec.INTEGER 2 8)
      (sample (ParamSpec.INTEGER 2 8) 11 (mkRat 1 2)) :=
  C3_sample_in_domain (.INTEGER 2 8) 11 (mkRat 1 2)
    (show (2 : ℤ) ≤ 8 by decide) (by decide) (by decide)

/-- C4: every single-trial operation either leaves the status alone,
moves PENDING to RUNNING, or moves RUNNING to a terminal status; and a
trial in a terminal status (FINISHED, FAILED or EARLY_STOPPED) is left
entirely unchanged by every operation. -/
theorem C4_status_transitions (op : Op) (tr : Trial) :
    ((applyOp op tr).status = tr.status ∨
     (tr.status = .PENDING ∧ (applyOp op tr).status = .RUNNING) ∨
     (tr.status = .RUNNING ∧ ((applyOp op tr).status).isTerminal = true)) ∧
    (tr.status.isTerminal = true → applyOp op tr = tr) := by
  cases op <;> cases htr : tr.status <;>
    cases hc : tr.cancelRequested <;>
    simp [applyOp, submitOp, finishOp, failOp, cancelOp, ackCancelOp,
      recordOp, htr, hc, Status.isTerminal]

/-- Witness for C4: a failure signal on a FINISHED trial leaves it
unchanged. -/
theorem C4_status_transitions_witness :
    applyOp Op.fail (doneTrial 0 (mkRat 70 100)) = doneTrial 0 (mkRat 70 100) :=
  (C4_status_transitions Op.fail (doneTrial 0 (mkRat 70 100))).2 (by decide)

/-- C8: a failure signal for trial i changes only the record of trial
i — the driver phase, the num_trials target, the channel and the count
of trials are unchanged, every trial with a different id is kept
as-is, and a RUNNING trial with id i becomes FAILED. -/
theorem C8_failure_isolated (i : Nat) (st : DriverState) :
    (workerFail i st).phase = st.phase ∧
    (workerFail i st).numTrials = st.numTrials ∧
    (workerFail i st).channel = st.channel ∧
    (workerFail i st).trials.length = st.trials.length ∧
    (∀ tr ∈ st.trials, tr.id ≠ i → tr ∈ (workerFail i st).trials) ∧
    (∀ tr ∈ st.trials, tr.id = i → tr.status = .RUNNING →
      ({ tr with status := Status.FAILED } : Trial) ∈ (workerFail i st).trials) := by
  refine ⟨rfl, rfl, rfl, by simp [workerFail], ?_, ?_⟩
  · intro tr htr hne
    have h : (if tr.id == i then failOp tr else tr) = tr := by
      simp [hne]
    exact List.mem_map.mpr ⟨tr, htr, h⟩
  · intro tr htr hid hrun
    have h : (if tr.id == i then failOp tr else tr) =
        { tr with status := Status.FAILED } := by
      simp [hid, failOp, hrun]
    exact List.mem_map.mpr ⟨tr, htr, h⟩

theorem cancelOp_id (tr : Trial) : (cancelOp tr).id = tr.id := by
  unfold cancelOp
  split <;> rfl

theorem ackCancelOp_id (tr : Trial) : (ackCancelOp tr).id = tr.id := by
  unfold ackCancelOp
  split <;> rfl

theorem find?_cancelTrial (i : Nat) (st : DriverState) (tr : Trial)
    (hfind : st.trials.find? (fun tr => tr.id == i) = some tr) :
    (cancelTrial i st).trials.find? (fun tr => tr.id == i) =
      some (cancelOp tr) := by
  have htri : (tr.id == i) = true := by
    have h0 := List.find?_some hfind
    simpa using h0
  show (st.trials.map fun tr => if tr.id == i then cancelOp tr else tr).find?
      (fun tr => tr.id == i) = some (cancelOp tr)
  rw [List.find?_map]
  have hp : ((fun tr : Trial => tr.id == i) ∘
      fun tr => if tr.id == i then cancelOp tr else tr) =
      fun tr : Trial => tr.id == i := by
    funext tr'
    by_cases h : (tr'.id == i) = true <;> simp [Function.comp, h, cancelOp_id]
  rw [hp, hfind]
  have htri2 : tr.id = i := by simpa using htri
  simp [htri2]

/-- C9: when cancel is requested on a RUNNING trial, the trial becomes
EARLY_STOPPED once the cancellation is acknowledged, and every report
issued after the cancel request leaves the driver state unchanged (the
message is discarded, so it can never reach the metric_history). -/
theorem C9_cancel_semantics (i : Nat) (st : DriverState) (tr : Trial)
    (hfind : st.trials.find? (fun tr => tr.id == i) = some tr)
    (hrun : tr.status = .RUNNING) :
    (∃ tr', (ackCancel i (cancelTrial i st)).trials.find?
        (fun tr => tr.id == i) = some tr' ∧
        tr'.status = .EARLY_STOPPED) ∧
    (∀ step v, report i step v (cancelTrial i st) = cancelTrial i st) := by
  have htri : (tr.id == i) = true := by
    have h0 := List.find?_some hfind
    simpa using h0
  have h1 : (cancelTrial i st).trials.find? (fun tr => tr.id == i) =
      some (cancelOp tr) := find?_cancelTrial i st tr hfind
  have hco : cancelOp tr = { tr with cancelRequested := true } := by
    simp [cancelOp, hrun]
  have h2 : (ackCancel i (cancelTrial i st)).trials.find?
      (fun tr => tr.id == i) = some (ackCancelOp (cancelOp tr)) := by
    show ((cancelTrial i st).trials.map
        fun tr => if tr.id == i then ackCancelOp tr else tr).find?
        (fun tr => tr.id == i) = some (ackCancelOp (cancelOp tr))
    rw [List.find?_map]
    have hp : ((fun tr : Trial => tr.id == i) ∘
        fun tr => if tr.id == i then ackCancelOp tr else tr) =
        fun tr : Trial => tr.id == i := by
      funext tr'
      by_cases h : (tr'.id == i) = true <;>
        simp [Function.comp, h, ackCancelOp_id]
    rw [hp, h1]
    have htri2 : (cancelOp tr).id = i := by
      rw [cancelOp_id]
      simpa using htri
    simp [htri2]
  constructor
  · refine ⟨ackCancelOp (cancelOp tr), h2, ?_⟩
    rw [hco]
    simp [ackCancelOp, hrun]
  · intro step v
    unfold report
    rw [h1, hco]
    simp [hrun]

/-- Witness for C9: cancelling running trial 0 of the concrete state
makes it EARLY_STOPPED after acknowledgement, and later reports to it
are discarded. -/
theorem C9_cancel_semantics_witness :
    (∃ tr', (ackCancel 0 (cancelTrial 0 stEx)).trials.find?
        (fun tr => tr.id == 0) = some tr' ∧
        tr'.status = Status.EARLY_STOPPED) ∧
    (∀ step v, report 0 step v (cancelTrial 0 stEx) = cancelTrial 0 stEx) :=
  C9_cancel_semantics 0 stEx (runTrial 0 (mkRat 50 100)) (by decide) (by decide)

/-- Witness for C8: failing trial 3 keeps the unrelated FINISHED trial
0 unchanged and moves the RUNNING trial 3 to FAILED. -/
theorem C8_failure_isolated_witness :
    doneTrial 0 (mkRat 70 100) ∈ (workerFail 3 stFew).trials ∧
    ({ runTrial 3 (mkRat 10 100) with status := Status.FAILED } : Trial) ∈
      (workerFail 3 stFew).trials :=
  ⟨(C8_failure_isolated 3 stFew).2.2.2.2.1 (doneTrial 0 (mkRat 70 100))
      (by decide) (by decide),
   (C8_failure_isolated 3 stFew).2.2.2.2.2 (runTrial 3 (mkRat 10 100))
      (by decide) (by decide) (by decide)⟩

theorem stepEvent_numTrials (e : Event) (st : DriverState) :
    (stepEvent e st).numTrials = st.numTrials := by
  cases e <;>
    simp only [stepEvent, launch, report, drain, policyTick, workerFinish,
      workerFail, cancelTrial, ackCancel] <;>
    (repeat' split) <;> rfl

theorem stepEvent_length (e : Event) (st : DriverState)
    (h : st.trials.length ≤ st.numTrials) :
    (stepEvent e st).trials.length ≤ st.numTrials := by
  cases e <;>
    simp only [stepEvent, launch, report, drain, policyTick, applyPolicy,
      workerFinish, workerFail, cancelTrial, ackCancel] <;>
    (repeat' split) <;>
    (try simp [List.length_map, List.length_append]) <;>
    omega

/-- C5: over every sequence of driver-loop events, the number of Trial
records ever created never exceeds the num_trials target of the
experiment, provided it did not already at the start. -/
theorem C5_num_trials_bound (events : List Event) (st : DriverState)
    (h : st.trials.length ≤ st.numTrials) :
    (run events st).trials.length ≤ st.numTrials := by
  induction events generalizing st with
  | nil => exact h
  | cons e es ih =>
    have h1 : (stepEvent e st).trials.length ≤ (stepEvent e st).numTrials := by
      rw [stepEvent_numTrials]
      exact stepEvent_length e st h
    have h2 := ih (stepEvent e st) h1
    rw [stepEvent_numTrials] at h2
    exact h2

/-- Witness for C5: the concrete event sequence with three launch
attempts against a num_trials target of two creates at most two
trials. -/
theorem C5_num_trials_bound_witness :
    (run eventsEx initEx).trials.length ≤ initEx.numTrials :=
  C5_num_trials_bound eventsEx initEx (by decide)

theorem better_irrefl (dir : Direction) (x : ℚ) : better dir x x = false := by
  cases dir <;> simp [better]

theorem better_neg_trans (dir : Direction) (x y z : ℚ)
    (h1 : better dir x y = false) (h2 : better dir y z = false) :
    better dir x z = false := by
  cases dir <;> simp [better, not_lt] at h1 h2 ⊢ <;> linarith

theorem better_cross (dir : Direction) (x y z : ℚ)
    (h1 : better dir x y = true) (h2 : better dir x z = false) :
    better dir y z = false := by
  cases dir <;> simp [better, not_lt] at h1 h2 ⊢ <;> linarith

theorem pickBest_some_some (dir : Direction) (t : Trial) (v : ℚ)
    (a : Trial) (av : ℚ) (heff : effFinal t = some v) :
    pickBest dir (some (a, av)) t =
      if better dir v av then some (t, v) else some (a, av) := by
  simp only [pickBest, heff]

theorem pickBest_fold_spec (dir : Direction) (l : List Trial) :
    ∀ (acc : Option (Trial × ℚ)) (b : Trial) (bv : ℚ),
    l.foldl (pickBest dir) acc = some (b, bv) →
    (acc = some (b, bv) ∨ (b ∈ l ∧ effFinal b = some bv)) ∧
    (∀ tr ∈ l, ∀ v, effFinal tr = some v → better dir v bv = false) ∧
    (∀ a av, acc = some (a, av) → better dir av bv = false) := by
  induction l with
  | nil =>
    intro acc b bv h
    rw [List.foldl_nil] at h
    refine ⟨Or.inl h, ?_, ?_⟩
    · intro tr htr
      exact absurd htr (List.not_mem_nil tr)
    · intro a av ha
      rw [h, Option.some.injEq, Prod.mk.injEq] at ha
      obtain ⟨-, rfl⟩ := ha
      exact better_irrefl dir bv
  | cons t l ih =>
    intro acc b bv h
    rw [List.foldl_cons] at h
    obtain ⟨ho, hl, hacc⟩ := ih (pickBest dir acc t) b bv h
    cases heff : effFinal t with
    | none =>
      have ha : pickBest dir acc t = acc := by
        simp only [pickBest, heff]
      rw [ha] at ho hacc
      refine ⟨?_, ?_, hacc⟩
      · rcases ho with h1 | h1
        · exact Or.inl h1
        · exact Or.inr ⟨List.mem_cons_of_mem t h1.1, h1.2⟩
      · intro tr htr v hv
        rcases List.mem_cons.mp htr with rfl | htr2
        · rw [heff] at hv
          cases hv
        · exact hl tr htr2 v hv
    | some v =>
      cases acc with
      | none =>
        have ha : pickBest dir none t = some (t, v) := by
          simp only [pickBest, heff]
        rw [ha] at ho hacc
        have hvb : better dir v bv = false := hacc t v rfl
        refine ⟨?_, ?_, ?_⟩
        · rcases ho with h1 | h1
          · rw [Option.some.injEq, Prod.mk.injEq] at h1
            obtain ⟨rfl, rfl⟩ := h1
            exact Or.inr ⟨List.mem_cons_self t l, heff⟩
          · exact Or.inr ⟨List.mem_cons_of_mem t h1.1, h1.2⟩
        · intro tr htr v2 hv2
          rcases List.mem_cons.mp htr with rfl | htr2
          · rw [heff] at hv2
            injection hv2 with h3
            exact h3 ▸ hvb
          · exact hl tr htr2 v2 hv2
        · intro a av ha2
          exact Option.noConfusion ha2
      | some p =>
        obtain ⟨a, av⟩ := p
        have hsplit := pickBest_some_some dir t v a av heff
        by_cases hb : better dir v av = true
        · have ha : pickBest dir (some (a, av)) t = some (t, v) := by
            rw [hsplit, if_pos hb]
          rw [ha] at ho hacc
          have hvb : better dir v bv = false := hacc t v rfl
          refine ⟨?_, ?_, ?_⟩
          · rcases ho with h1 | h1
            · rw [Option.some.injEq, Prod.mk.injEq] at h1
              obtain ⟨rfl, rfl⟩ := h1
              exact Or.inr ⟨List.mem_cons_self t l, heff⟩
            · exact Or.inr ⟨List.mem_cons_of_mem t h1.1, h1.2⟩
          · intro tr htr v2 hv2
            rcases List.mem_cons.mp htr with rfl | htr2
            · rw [heff] at hv2
              injection hv2 with h3
              exact h3 ▸ hvb
            · exact hl tr htr2 v2 hv2
          · intro a2 av2 ha2
            rw [Option.some.injEq, Prod.mk.injEq] at ha2
            obtain ⟨rfl, rfl⟩ := ha2
            exact better_cross dir v av bv hb hvb
        · have hbf : better dir v av = false := by
            simpa using hb
          have ha : pickBest dir (some (a, av)) t = some (a, av) := by
            rw [hsplit, if_neg hb]
          rw [ha] at ho hacc
          have havb : better dir av bv = false := hacc a av rfl
          refine ⟨?_, ?_, ?_⟩
          · rcases ho with h1 | h1
            · exact Or.inl h1
            · exact Or.inr ⟨List.mem_cons_of_mem t h1.1, h1.2⟩
          · intro tr htr v2 hv2
            rcases List.mem_cons.mp htr with rfl | htr2
            · rw [heff] at hv2
              injection hv2 with h3
              exact h3 ▸ better_neg_trans dir v av bv hbf havb
            · exact hl tr htr2 v2 hv2
          · intro a2 av2 ha2
            rw [Option.some.injEq, Prod.mk.injEq] at ha2
            obtain ⟨rfl, rfl⟩ := ha2
            exact havb

/-- C6: when the driver finalizes an experiment, its phase is DONE and
the computed best trial is a FINISHED or EARLY_STOPPED trial of the
experiment whose final value dominates, in the direction-aware order,
the final value of every FINISHED or EARLY_STOPPED trial (FAILED
trials take no part). -/
theorem C6_best_trial (st : DriverState) (b : Trial) (bv : ℚ)
    (h : (finalizeExp st).best = some (b, bv)) :
    (finalizeExp st).phase = Phase.DONE ∧
    b ∈ st.trials ∧ isCompleted b = true ∧ effFinal b = some bv ∧
    (∀ tr ∈ st.trials, isCompleted tr = true → ∀ v, effFinal tr = some v →
      (st.dir = .MAXIMIZE → v ≤ bv) ∧ (st.dir = .MINIMIZE → bv ≤ v)) := by
  have hc : computeBest st.dir st.trials = some (b, bv) := h
  obtain ⟨ho, hl, -⟩ :=
    pickBest_fold_spec st.dir (st.trials.filter isCompleted) none b bv hc
  rcases ho with h1 | h1
  · exact Option.noConfusion h1
  · obtain ⟨hmem, heffb⟩ := h1
    have hmem2 := List.mem_filter.mp hmem
    refine ⟨rfl, hmem2.1, hmem2.2, heffb, ?_⟩
    intro tr htr hcomp v hv
    have htr2 : tr ∈ st.trials.filter isCompleted :=
      List.mem_filter.mpr ⟨htr, hcomp⟩
    have hb := hl tr htr2 v hv
    constructor
    · intro hdir
      rw [hdir] at hb
      simp only [better, decide_eq_false_iff_not, not_lt] at hb
      exact hb
    · intro hdir
      rw [hdir] at hb
      simp only [better, decide_eq_false_iff_not, not_lt] at hb
      exact hb

/-- Witness for C6: finalizing the concrete state marks it DONE and the
best trial is the FINISHED trial with value 0.9. -/
theorem C6_best_trial_witness :
    (finalizeExp stBest).phase = Phase.DONE ∧
    doneTrial 1 (mkRat 90 100) ∈ stBest.trials :=
  ⟨(C6_best_trial stBest (doneTrial 1 (mkRat 90 100)) (mkRat 90 100)
      (by decide)).1,
   (C6_best_trial stBest (doneTrial 1 (mkRat 90 100)) (mkRat 90 100)
      (by decide)).2.1⟩

end Driver
